import Mathlib

/-!
# Verification of the codecrafters-redis-rust core

Shallow embedding of the repository's three source files:

* `src/protocol_parser.rs` — the RESP value model, its `Display` encoder and
  the split-on-CRLF parser (`parse_input` / `parse_input_segments`), the
  command model and reply production (`Command::as_response`).
* `src/main.rs` — the keyspace (`db_set`, `db_get`, `DBEntry::is_expired`)
  and the per-command processing order of `handle_connection`.
* `src/rdb.rs` — the RDB snapshot section loop (`load_db`) and the
  length-encoding subcodec (`extract_value`).

Modelling conventions:

* Rust `String` payloads on the RESP side are Lean `List Char` (a Rust
  `String` is a sequence of characters; `List Char` is Lean's underlying
  string representation).  On the RDB side, where the code manipulates raw
  bytes and UTF-8 validity, Rust `String`s are modelled as their UTF-8 byte
  lists (`List Nat`).
* `SystemTime` instants are abstract `Nat` time stamps (milliseconds since
  the epoch on the RDB side); `SystemTime::now()` becomes an explicit `now`
  parameter.
* A Rust panic (`panic!`, `unwrap` on `None`, `unreachable!`) is the
  `Option.none` outcome of the embedded function; the source's parser and
  loader have no non-panicking error path of their own except `Result`
  returns in `rdb.rs`, which are also `none` here.
* The `HashMap` keyspace is modelled extensionally as a function from keys
  to optional entries (`insert` overwrites, `remove` deletes, and no claim
  observes iteration order).
-/

namespace Redis

/-! ## RESP value model (`protocol_parser.rs`, `enum RESPValue`) -/

/-- `RESPValue` from `protocol_parser.rs`: the five implemented wire values.
Text payloads are char lists, `Integer` carries an `i64` value (a
mathematical integer; the i64 range is imposed where it matters). -/
inductive RESPValue where
  | simpleString (s : List Char)
  | error (s : List Char)
  | integer (i : Int)
  | bulkString (s : List Char)
  | array (vs : List RESPValue)

/-! ## Keyspace (`main.rs`) -/

/-- `DBEntry` from `main.rs`: a stored value with an optional expiry instant. -/
structure DBEntry where
  value : RESPValue
  expires_at : Option Nat

/-- The keyspace `HashMap<String, DBEntry>`, modelled extensionally. -/
def DB : Type := String → Option DBEntry

/-- The empty keyspace. -/
def DB.empty : DB := fun _ => none

/-- `DBEntry::is_expired`: true iff an expiry is present and `now`
strictly exceeds it (`now > expiry`). -/
def DBEntry.is_expired (e : DBEntry) (now : Nat) : Bool :=
  match e.expires_at with
  | some expiry => now > expiry
  | none => false

/-- `SetCondition` from `protocol_parser.rs`. -/
inductive SetCondition where
  | ifExists
  | ifNotExists
  | always
  deriving DecidableEq

/-- `SetOpts` from `protocol_parser.rs`. -/
structure SetOpts where
  expires_at : Option Nat
  condition : SetCondition
  keep_ttl : Bool
  get : Bool
  deriving DecidableEq

/-- `db_set` from `main.rs`: observe presence, apply the NX/XX early
returns, then insert `(value, opts.expires_at)`.  (The source ignores
`opts.keep_ttl` when computing the stored expiry.) -/
def db_set (db : DB) (key : String) (value : RESPValue) (opts : SetOpts) : DB :=
  let key_exists := (db key).isSome
  if key_exists ∧ opts.condition = SetCondition.ifNotExists then
    db
  else if ¬key_exists ∧ opts.condition = SetCondition.ifExists then
    db
  else
    fun k => if k = key then some ⟨value, opts.expires_at⟩ else db k

/-- `db_get` from `main.rs`: look the key up; an expired entry is removed
and reported missing; a live entry is returned; the updated keyspace is the
second component. -/
def db_get (db : DB) (key : String) (now : Nat) : Option RESPValue × DB :=
  match db key with
  | some entry =>
      if entry.is_expired now then
        (none, fun k => if k = key then none else db k)
      else
        (some entry.value, db)
  | none => (none, db)

/-! ## Command model and replies (`protocol_parser.rs`, `Command` / `Response`) -/

/-- `Command` from `protocol_parser.rs`. -/
inductive Command where
  | ping
  | echo (v : RESPValue)
  | command
  | set (key : String) (value : RESPValue) (opts : SetOpts)
  | get (key : String)
  | configGet (key : String)

/-- `Response` from `protocol_parser.rs`. -/
inductive Response where
  | ok
  | pong
  | echo (v : RESPValue)
  | null

/-- `Command::as_response`: produce the reply.  `Set` with the `GET` option
and `Get` read the keyspace through `db_get`, which may remove an expired
entry, so the (possibly updated) keyspace is returned alongside.
(`ConfigGet` consults only the immutable configuration and is irrelevant to
the claims; it is modelled as replying `null`.) -/
def as_response (c : Command) (db : DB) (now : Nat) : Response × DB :=
  match c with
  | .ping => (.pong, db)
  | .echo v => (.echo v, db)
  | .command => (.ok, db)
  | .set key _ opts =>
      if opts.get then
        match db_get db key now with
        | (some value, db') => (.echo value, db')
        | (none, db') => (.null, db')
      else
        (.ok, db)
  | .get key =>
      match db_get db key now with
      | (some value, db') => (.echo value, db')
      | (none, db') => (.null, db')
  | .configGet _ => (.null, db)

/-- `Command::execute`: only `Set` mutates the keyspace (the other arms
merely log). -/
def Command.execute (c : Command) (db : DB) : DB :=
  match c with
  | .set key value opts => db_set db key value opts
  | _ => db

/-- One iteration of `handle_connection`'s per-command processing: the
reply is produced by `as_response` *before* `execute` runs, so replies
observe the pre-write keyspace. -/
def step (c : Command) (db : DB) (now : Nat) : Response × DB :=
  let rd := as_response c db now
  (rd.1, c.execute rd.2)

/-! ## Keyspace example states used by witnesses -/

/-- A keyspace holding, at every key, the integer 7 with expiry instant 10. -/
def dbLive : DB := fun _ => some ⟨.integer 7, some 10⟩

/-- The everywhere-empty keyspace. -/
def dbNone : DB := fun _ => none

/-! ## RDB decoder (`rdb.rs`)

Rust `String`s on this side are modelled as their UTF-8 byte lists
(`List Nat`), since `rdb.rs` works on raw bytes and `String::from_utf8`
validity.  File reads become explicit stream passing over a byte list. -/

/-- Little-endian byte-list decoding, the model of
`u16/u32/u64::from_le_bytes`. -/
def from_le_bytes : List Nat → Nat
  | [] => 0
  | b :: rest => b + 256 * from_le_bytes rest

/-- `Read::read_exact` into an `n`-byte buffer: the next `n` bytes and the
remaining stream, failing when the stream is too short. -/
def readExact (n : Nat) (s : List Nat) : Option (List Nat × List Nat) :=
  if n ≤ s.length then some (s.take n, s.drop n) else none

/-- Decimal digits of `n`, most significant first, as characters. -/
def natChars (n : Nat) : List Char :=
  if n = 0 then ['0'] else (Nat.digits 10 n).reverse.map Nat.digitChar

/-- Decimal representation of `n` as ASCII bytes: the model of
`usize::to_string`. -/
def natBytes (n : Nat) : List Nat :=
  (natChars n).map Char.toNat

/-- A UTF-8 continuation byte (`0x80..=0xBF`). -/
def contB (b : Nat) : Bool := 0x80 ≤ b ∧ b ≤ 0xBF

/-- UTF-8 validity of a byte list (RFC 3629 ranges, including the overlong
and surrogate exclusions): the success condition of `String::from_utf8`. -/
def utf8Valid : List Nat → Bool
  | [] => true
  | b :: rest =>
    if b ≤ 0x7F then utf8Valid rest
    else
      match rest with
      | b2 :: rest2 =>
        if 0xC2 ≤ b ∧ b ≤ 0xDF then contB b2 && utf8Valid rest2
        else
          match rest2 with
          | b3 :: rest3 =>
            if b = 0xE0 then decide (0xA0 ≤ b2 ∧ b2 ≤ 0xBF) && contB b3 && utf8Valid rest3
            else if (0xE1 ≤ b ∧ b ≤ 0xEC) ∨ (0xEE ≤ b ∧ b ≤ 0xEF) then
              contB b2 && contB b3 && utf8Valid rest3
            else if b = 0xED then decide (0x80 ≤ b2 ∧ b2 ≤ 0x9F) && contB b3 && utf8Valid rest3
            else
              match rest3 with
              | b4 :: rest4 =>
                if b = 0xF0 then
                  decide (0x90 ≤ b2 ∧ b2 ≤ 0xBF) && contB b3 && contB b4 && utf8Valid rest4
                else if 0xF1 ≤ b ∧ b ≤ 0xF3 then
                  contB b2 && contB b3 && contB b4 && utf8Valid rest4
                else if b = 0xF4 then
                  decide (0x80 ≤ b2 ∧ b2 ≤ 0x8F) && contB b3 && contB b4 && utf8Valid rest4
                else false
              | [] => false
          | [] => false
      | [] => false

/-- `LengthEncodedKind` from `rdb.rs`. -/
inductive LengthEncodedKind where
  | integer
  | string
  deriving DecidableEq

/-- `extract_value` from `rdb.rs`: the length-encoding subcodec, dispatching
on the top two bits of `byte`.  Returns the decoded string (as UTF-8 bytes)
and the remaining stream.  Source quirks reproduced faithfully: a `00`
variant of length 0 returns the literal `"0"`, and zero bytes in a `00`
variant payload are rewritten to ASCII `'0'` before UTF-8 validation. -/
def extract_value (byte : Nat) (file : List Nat) (lek : LengthEncodedKind) :
    Option (List Nat × List Nat) :=
  let nullified := byte &&& 0xC0
  if nullified = 0x00 then
    let length := byte &&& 0x3F
    if length = 0 then some ([0x30], file)
    else if lek = .integer then some (natBytes length, file)
    else
      match readExact length file with
      | some (val, rest) =>
          let val := val.map (fun x => if x = 0 then 0x30 else x)
          if utf8Valid val then some (val, rest) else none
      | none => none
  else if nullified = 0x40 then
    match file with
    | b2 :: rest =>
        let length := from_le_bytes [byte &&& 0x3F, b2]
        if lek = .integer then some (natBytes length, rest)
        else
          match readExact length rest with
          | some (val, rest2) => if utf8Valid val then some (val, rest2) else none
          | none => none
    | [] => none
  else if nullified = 0x80 then
    match readExact 4 file with
    | some (lb, rest) =>
        let length := from_le_bytes lb
        if lek = .integer then some (natBytes length, rest)
        else
          match readExact length rest with
          | some (val, rest2) => if utf8Valid val then some (val, rest2) else none
          | none => none
    | none => none
  else if nullified = 0xC0 ∨ nullified = 0xC1 ∨ nullified = 0xC2 then
    match byte &&& 0x3F with
    | 0 =>
        match readExact 1 file with
        | some (bs, rest) => some (natBytes (from_le_bytes bs), rest)
        | none => none
    | 1 =>
        match readExact 2 file with
        | some (bs, rest) => some (natBytes (from_le_bytes bs), rest)
        | none => none
    | 2 =>
        match readExact 4 file with
        | some (bs, rest) => some (natBytes (from_le_bytes bs), rest)
        | none => none
    | _ => none
  else
    none

/-- One ASCII decimal digit. -/
def asciiDigit (b : Nat) : Option Nat :=
  if 0x30 ≤ b ∧ b ≤ 0x39 then some (b - 0x30) else none

/-- Left-to-right accumulation of ASCII decimal digits. -/
def parseAsciiDigitsCore : List Nat → Nat → Option Nat
  | [], acc => some acc
  | b :: bs, acc =>
      match asciiDigit b with
      | some d => parseAsciiDigitsCore bs (10 * acc + d)
      | none => none

/-- A non-empty all-digit ASCII numeral. -/
def parseAsciiDigits : List Nat → Option Nat
  | [] => none
  | l => parseAsciiDigitsCore l 0

/-- Unsigned `str::parse` over the byte model (an optional leading `+`
then decimal digits). -/
def parseAsciiNat : List Nat → Option Nat
  | 0x2B :: rest => parseAsciiDigits rest
  | l => parseAsciiDigits l

/-- `.parse::<u32>().unwrap_or(0)`. -/
def parseU32OrZero (s : List Nat) : Nat :=
  match parseAsciiNat s with
  | some n => if n < 2 ^ 32 then n else 0
  | none => 0

/-- `.parse::<usize>().unwrap_or(0)`. -/
def parseUsizeOrZero (s : List Nat) : Nat :=
  match parseAsciiNat s with
  | some n => if n < 2 ^ 64 then n else 0
  | none => 0

/-- `DBEntry` from `rdb.rs`.  The loader always wraps the loaded string in
`RESPValue::SimpleString`, so the value is that string's bytes; `expires_at`
is milliseconds since `UNIX_EPOCH`. -/
structure RdbEntry where
  value : List Nat
  expires_at : Option Nat
  deriving DecidableEq

/-- `Rdb` from `rdb.rs` (the `version` header field is read before the
section loop and is carried unchanged by it). -/
structure Rdb where
  version : List Nat
  metadata : List Nat → Option (List Nat)
  db_hash_table_size : Nat
  expiry_hash_table_size : Nat
  selected_db : Nat
  data : List Nat → Option RdbEntry
  original_checksum : Nat

/-- `Rdb::default()`. -/
def Rdb.init : Rdb :=
  ⟨[], fun _ => none, 0, 0, 0, fun _ => none, 0⟩

/-- The key/value tail of a data entry: a length-encoded key starting at
byte `k0`, then a length-encoded value; returns both and the remaining
stream. -/
def read_entry (k0 : Nat) (s : List Nat) : Option ((List Nat × List Nat) × List Nat) :=
  match extract_value k0 s .string with
  | some (key, s1) =>
      match s1 with
      | v0 :: s2 =>
          match extract_value v0 s2 .string with
          | some (val, s3) => some ((key, val), s3)
          | none => none
      | [] => none
  | none => none

/-- The section loop of `load_db` (`rdb.rs` lines 75..224), fuel-indexed:
each loop iteration consumes one unit of fuel (the Rust `loop` is unbounded,
so theorems quantify over sufficient fuel and `none` covers both I/O errors
and exhausted fuel).  Reproduced faithfully, including: the `0xFC` expiry of
value zero `continue`s, skipping the entry; and when the expiry ends up
`None` after an `0xFD`/`0xFC` marker was consumed, the key's first length
byte is the stale `buf[0]`, i.e. the marker byte itself. -/
def load_db_iter : Nat → List Nat → Rdb → Option Rdb
  | 0, _, _ => none
  | fuel + 1, bytes, acc =>
    match bytes with
    | [] => none
    | b :: rest =>
      if b = 0xFA then
        -- metadata subsection: length-encoded key then value
        match rest with
        | k0 :: r1 =>
            match extract_value k0 r1 .string with
            | some (key, r2) =>
                match r2 with
                | v0 :: r3 =>
                    match extract_value v0 r3 .string with
                    | some (val, r4) =>
                        load_db_iter fuel r4
                          { acc with
                            metadata := fun k => if k = key then some val else acc.metadata k }
                    | none => none
                | [] => none
            | none => none
        | [] => none
      else if b = 0xFE then
        -- database selector
        match rest with
        | s0 :: r1 =>
            match extract_value s0 r1 .integer with
            | some (sel, r2) =>
                load_db_iter fuel r2 { acc with selected_db := parseU32OrZero sel }
            | none => none
        | [] => none
      else if b = 0xFB then
        -- resize hints: two length-encoded integers
        match rest with
        | d0 :: r1 =>
            match extract_value d0 r1 .integer with
            | some (ds, r2) =>
                match r2 with
                | e0 :: r3 =>
                    match extract_value e0 r3 .integer with
                    | some (es, r4) =>
                        load_db_iter fuel r4
                          { acc with
                            db_hash_table_size := parseUsizeOrZero ds,
                            expiry_hash_table_size := parseUsizeOrZero es }
                    | none => none
                | [] => none
            | none => none
        | [] => none
      else if b = 0xFF then
        -- end-of-file checksum, then break out of the loop
        match readExact 8 rest with
        | some (cb, _) => some { acc with original_checksum := from_le_bytes cb }
        | none => none
      else
        -- data entry: `b` is the type tag (`extract_datatype` only logs)
        match rest with
        | m :: r1 =>
          if m = 0xFD then
            match readExact 4 r1 with
            | some (eb, r2) =>
                if from_le_bytes eb = 0 then
                  -- zero seconds: expiry None, but `buf[0]` (the marker
                  -- byte 0xFD) is then reused as the key's length byte
                  match read_entry 0xFD r2 with
                  | some ((key, val), s3) =>
                      load_db_iter fuel s3
                        { acc with
                          data := fun k => if k = key then some ⟨val, none⟩ else acc.data k }
                  | none => none
                else
                  match r2 with
                  | k0 :: r3 =>
                      match read_entry k0 r3 with
                      | some ((key, val), s3) =>
                          load_db_iter fuel s3
                            { acc with
                              data := fun k =>
                                if k = key then some ⟨val, some (1000 * from_le_bytes eb)⟩
                                else acc.data k }
                      | none => none
                  | [] => none
            | none => none
          else if m = 0xFC then
            match readExact 8 r1 with
            | some (eb, r2) =>
                if from_le_bytes eb = 0 then
                  -- zero milliseconds: `continue`, skipping the entry
                  load_db_iter fuel r2 acc
                else
                  match r2 with
                  | k0 :: r3 =>
                      match read_entry k0 r3 with
                      | some ((key, val), s3) =>
                          load_db_iter fuel s3
                            { acc with
                              data := fun k =>
                                if k = key then some ⟨val, some (from_le_bytes eb)⟩
                                else acc.data k }
                      | none => none
                  | [] => none
            | none => none
          else
            match read_entry m r1 with
            | some ((key, val), s3) =>
                load_db_iter fuel s3
                  { acc with
                    data := fun k => if k = key then some ⟨val, none⟩ else acc.data k }
            | none => none
        | [] => none

/-! ## RESP wire codec (`protocol_parser.rs`)

The wire buffer is a char list.  `parse_input` splits on the separator
`"\r\n"` and consumes the segments recursively; the encoder is the `Display`
instance of `RESPValue`. -/

/-- The separator `"\r\n"`. -/
def CRLF : List Char := ['\r', '\n']

/-- Rust `str::split("\r\n")`: greedy leftmost splitting at every
occurrence of the separator, keeping empty segments (including the trailing
one when the input ends with the separator). -/
def splitCRLF : List Char → List (List Char)
  | [] => [[]]
  | [c] => [[c]]
  | c1 :: c2 :: rest =>
    if c1 = '\r' ∧ c2 = '\n' then
      [] :: splitCRLF rest
    else
      match splitCRLF (c2 :: rest) with
      | [] => [[c1]]
      | s :: ss => (c1 :: s) :: ss

/-- No occurrence of the substring `"\r\n"`. -/
def noCRLF : List Char → Bool
  | [] => true
  | [_] => true
  | c1 :: c2 :: rest =>
    if c1 = '\r' ∧ c2 = '\n' then false else noCRLF (c2 :: rest)

/-- The value of an ASCII decimal digit character. -/
def digitVal (c : Char) : Option Nat :=
  if '0' ≤ c ∧ c ≤ '9' then some (c.toNat - 48) else none

/-- Left-to-right decimal accumulation over characters. -/
def parseDigitsCore : List Char → Nat → Option Nat
  | [], acc => some acc
  | c :: cs, acc =>
      match digitVal c with
      | some d => parseDigitsCore cs (10 * acc + d)
      | none => none

/-- A non-empty all-digit numeral. -/
def parseDigits : List Char → Option Nat
  | [] => none
  | l => parseDigitsCore l 0

/-- `str::parse::<i64>`: optional sign, then digits, with the i64 range
check. -/
def parseI64 (s : List Char) : Option Int :=
  match s with
  | [] => none
  | c :: rest =>
    if c = '-' then
      (parseDigits rest).bind fun n => if n ≤ 2 ^ 63 then some (-(n : Int)) else none
    else if c = '+' then
      (parseDigits rest).bind fun n => if n < 2 ^ 63 then some ((n : Int)) else none
    else
      (parseDigits (c :: rest)).bind fun n => if n < 2 ^ 63 then some ((n : Int)) else none

/-- `str::parse::<usize>`: optional `+`, then digits, with the usize range
check. -/
def parseUsize (s : List Char) : Option Nat :=
  match s with
  | [] => none
  | c :: rest =>
    if c = '+' then
      (parseDigits rest).bind fun n => if n < 2 ^ 64 then some n else none
    else
      (parseDigits (c :: rest)).bind fun n => if n < 2 ^ 64 then some n else none

/-- `i64`'s `Display`: a `-` sign for negatives, then decimal digits. -/
def intChars (i : Int) : List Char :=
  if i < 0 then '-' :: natChars i.natAbs else natChars i.toNat

/-- Rust `String::len`: the UTF-8 byte length. -/
def utf8Len (s : List Char) : Nat :=
  (s.map Char.utf8Size).sum

mutual

/-- The `Display` instance of `RESPValue`: the canonical wire encoding. -/
def encode : RESPValue → List Char
  | .simpleString s => '+' :: (s ++ CRLF)
  | .error s => '-' :: (s ++ CRLF)
  | .integer i => ':' :: (intChars i ++ CRLF)
  | .bulkString s => '$' :: (natChars (utf8Len s) ++ CRLF ++ s ++ CRLF)
  | .array vs => '*' :: (natChars vs.length ++ CRLF) ++ encodeList vs

/-- Concatenation of the encodings of a sequence of values (the shape of a
pipelined request buffer). -/
def encodeList : List RESPValue → List Char
  | [] => []
  | v :: vs => encode v ++ encodeList vs

end

mutual

/-- The separator-delimited segments an encoded value contributes: its
encoding is their `joinSegs`. -/
def segs : RESPValue → List (List Char)
  | .simpleString s => [('+' :: s)]
  | .error s => [('-' :: s)]
  | .integer i => [(':' :: intChars i)]
  | .bulkString s => [('$' :: natChars (utf8Len s)), s]
  | .array vs => ('*' :: natChars vs.length) :: segsList vs

/-- Segments of a sequence of values. -/
def segsList : List RESPValue → List (List Char)
  | [] => []
  | v :: vs => segs v ++ segsList vs

end

/-- Rejoin segments, terminating each with the separator. -/
def joinSegs (ss : List (List Char)) : List Char :=
  (ss.map (fun s => s ++ CRLF)).join

mutual

/-- The printable subset of claim C1: simple strings and errors carry no CR
or LF, integers are in i64 range, bulk payloads contain no `"\r\n"`, arrays
have usize length and well-formed elements. -/
def wf : RESPValue → Bool
  | .simpleString s => s.all (fun c => ¬(c = '\r' ∨ c = '\n'))
  | .error s => s.all (fun c => ¬(c = '\r' ∨ c = '\n'))
  | .integer i => decide (-(2 ^ 63) ≤ i ∧ i < 2 ^ 63)
  | .bulkString s => noCRLF s
  | .array vs => decide (vs.length < 2 ^ 64) && wfList vs

/-- Well-formedness of every value of a sequence. -/
def wfList : List RESPValue → Bool
  | [] => true
  | v :: vs => wf v && wfList vs

end

mutual

/-- `parse_input_segments` from `protocol_parser.rs`: consume one value
from the segment stream.  Panics (`none`): exhausted stream, empty segment,
failed integer parse, and the explicit unknown-prefix `panic!`.  The result
carries the strict-consumption bound needed by the callers' recursion. -/
def parseSegs : (parts : List (List Char)) →
    Option (RESPValue × { l : List (List Char) // l.length < parts.length })
  | [] => none
  | seg :: parts =>
    match seg with
    | [] => none
    | c :: rest =>
      if c = '+' then some (.simpleString rest, ⟨parts, by simp⟩)
      else if c = '-' then some (.error rest, ⟨parts, by simp⟩)
      else if c = ':' then
        (parseI64 rest).map (fun i => (.integer i, ⟨parts, by simp⟩))
      else if c = '$' then
        -- the declared length is ignored: the split already framed the payload
        match parts with
        | payload :: parts2 =>
            some (.bulkString payload, ⟨parts2, by simp [Nat.lt_succ_iff, Nat.le_succ_of_le]⟩)
        | [] => none
      else if c = '*' then
        (parseUsize rest).bind (fun len =>
          (parseArr len parts).map (fun p =>
            (.array p.1, ⟨p.2.1, lt_of_le_of_lt p.2.2 (by simp)⟩)))
      else none
termination_by parts => (parts.length, 0)
decreasing_by all_goals simp_wf <;> omega

/-- The `0..len` recursion of the `*` arm. -/
def parseArr : (len : Nat) → (parts : List (List Char)) →
    Option (List RESPValue × { l : List (List Char) // l.length ≤ parts.length })
  | 0, parts => some ([], ⟨parts, Nat.le_refl _⟩)
  | len + 1, parts =>
      (parseSegs parts).bind (fun p =>
        (parseArr len p.2.1).map (fun q =>
          (p.1 :: q.1, ⟨q.2.1, Nat.le_trans q.2.2 (Nat.le_of_lt p.2.2)⟩)))
termination_by len parts => (parts.length, len + 1)
decreasing_by
  · simp_wf; omega
  · simp_wf
    have := p.2.2
    omega

end

/-- `parseSegs` with the consumption bound erased. -/
def parseSegsRun (parts : List (List Char)) : Option (RESPValue × List (List Char)) :=
  (parseSegs parts).map (fun p => (p.1, p.2.1))

/-- `parseArr` with the consumption bound erased. -/
def parseArrRun (len : Nat) (parts : List (List Char)) :
    Option (List RESPValue × List (List Char)) :=
  (parseArr len parts).map (fun p => (p.1, p.2.1))

/-- The driver loop of `parse_input`: collect values while the next segment
exists and is non-empty. -/
def parseLoop : List (List Char) → Option (List RESPValue)
  | [] => some []
  | seg :: parts =>
      if seg.isEmpty then some []
      else
        (parseSegs (seg :: parts)).bind (fun p =>
          (parseLoop p.2.1).map (fun vs => p.1 :: vs))
termination_by ps => ps.length
decreasing_by
  simp_wf
  have := p.2.2
  simp only [List.length_cons] at *
  omega

/-- `parse_input` from `protocol_parser.rs`: split the buffer on `"\r\n"`
and consume values until the trailing empty segment. -/
def parse_input (input : List Char) : Option (List RESPValue) :=
  parseLoop (splitCRLF input)

/-- Concrete RDB section stream refuting claim C6: one data entry (type tag
0x00) preceded by a millisecond expiry marker `0xFC` with payload zero; the
entry's key is the length-1 string `" "` (bytes `0x01 0x20`) and its value a
35-byte string (`0x23` then 35 payload bytes); then the end-of-file section.
The expiry-zero `continue` makes the decoder reinterpret the key/value bytes
as further sections (a spurious type-1 entry), so the real key is never
loaded. -/
def c6Bytes : List Nat :=
  [0x00, 0xFC] ++ List.replicate 8 0 ++
    [0x01, 0x20, 0x23] ++ List.replicate 31 0x41 ++
    [0x03, 0x41, 0x41, 0x41, 0xFF] ++ List.replicate 8 0

/-! ## Keyspace theorems -/

/-- Claim C2: `db_get` returns the stored value exactly when the entry is
present and not yet strictly expired; a present-but-expired entry is removed
and reported missing; an absent key reports missing; and a returned value is
never one of an expired entry. -/
theorem C2_db_get_lazy_expiry :
    (∀ (db : DB) (key : String) (now : Nat) (e : DBEntry),
        db key = some e → e.is_expired now = false →
        db_get db key now = (some e.value, db)) ∧
    (∀ (db : DB) (key : String) (now : Nat) (e : DBEntry),
        db key = some e → e.is_expired now = true →
        (db_get db key now).1 = none ∧ (db_get db key now).2 key = none) ∧
    (∀ (db : DB) (key : String) (now : Nat),
        db key = none → db_get db key now = (none, db)) ∧
    (∀ (db : DB) (key : String) (now : Nat) (v : RESPValue),
        (db_get db key now).1 = some v →
        ∃ e, db key = some e ∧ e.is_expired now = false ∧ v = e.value) := by
  refine ⟨?_, ?_, ?_, ?_⟩
  · intro db key now e he hl
    simp [db_get, he, hl]
  · intro db key now e he hx
    simp [db_get, he, hx]
  · intro db key now he
    simp [db_get, he]
  · intro db key now v hv
    unfold db_get at hv
    cases he : db key with
    | none => rw [he] at hv; simp at hv
    | some e =>
        rw [he] at hv
        by_cases hx : e.is_expired now
        · simp [hx] at hv
        · simp [hx] at hv
          exact ⟨e, rfl, by simp [hx], hv.symm⟩

/-- Claim C2 witness: the three cases at concrete keyspaces. -/
theorem C2_db_get_lazy_expiry_witness :
    db_get dbLive "k" 5 = (some (.integer 7), dbLive) ∧
    ((db_get dbLive "k" 20).1 = none ∧ (db_get dbLive "k" 20).2 "k" = none) ∧
    db_get dbNone "k" 5 = (none, dbNone) :=
  ⟨C2_db_get_lazy_expiry.1 dbLive "k" 5 ⟨.integer 7, some 10⟩ rfl (by decide),
   C2_db_get_lazy_expiry.2.1 dbLive "k" 20 ⟨.integer 7, some 10⟩ rfl (by decide),
   C2_db_get_lazy_expiry.2.2.1 dbNone "k" 5 rfl⟩

/-- Claim C3: `db_set` with condition `IfNotExists` on a present key, and
with condition `IfExists` on an absent key, returns the keyspace unchanged;
and a `SET` without the `GET` option (in particular the NX no-op) still
replies `+OK`. -/
theorem C3_set_nx_xx_noop :
    (∀ (db : DB) (key : String) (value : RESPValue) (opts : SetOpts),
        (db key).isSome = true → opts.condition = .ifNotExists →
        db_set db key value opts = db) ∧
    (∀ (db : DB) (key : String) (value : RESPValue) (opts : SetOpts),
        db key = none → opts.condition = .ifExists →
        db_set db key value opts = db) ∧
    (∀ (db : DB) (key : String) (value : RESPValue) (opts : SetOpts) (now : Nat),
        opts.get = false →
        as_response (.set key value opts) db now = (.ok, db)) := by
  refine ⟨?_, ?_, ?_⟩
  · intro db key value opts hk hc
    simp [db_set, hk, hc]
  · intro db key value opts hk hc
    simp [db_set, hk, hc]
  · intro db key value opts now hg
    simp [as_response, hg]

/-- Claim C3 witness: NX no-op on a present key, XX no-op on an absent key,
and the `+OK` reply, at concrete keyspaces. -/
theorem C3_set_nx_xx_noop_witness :
    db_set dbLive "k" (.integer 1) ⟨none, .ifNotExists, false, false⟩ = dbLive ∧
    db_set dbNone "k" (.integer 1) ⟨none, .ifExists, false, false⟩ = dbNone ∧
    as_response (.set "k" (.integer 1) ⟨none, .ifNotExists, false, false⟩) dbLive 0 =
      (.ok, dbLive) :=
  ⟨C3_set_nx_xx_noop.1 dbLive "k" _ _ rfl rfl,
   C3_set_nx_xx_noop.2.1 dbNone "k" _ _ rfl rfl,
   C3_set_nx_xx_noop.2.2 dbLive "k" _ _ 0 rfl⟩

/-- Claim C4 failing input: `db_set` ignores `opts.keep_ttl`.  Here the
prior entry for `"k"` carries expiry instant 100 and the `SET` has
`keep_ttl = true` with no expiry of its own, yet the stored entry's
`expires_at` is `none` (the claim requires it to inherit `some 100`). -/
theorem C4_keep_ttl_ignored :
    dbLive "k" = some ⟨.integer 7, some 10⟩ ∧
    (db_set dbLive "k" (.integer 2) ⟨none, .always, true, false⟩) "k" =
      some ⟨.integer 2, none⟩ := by
  constructor
  · rfl
  · simp [db_set, dbLive]

/-- Claim C5: a `SET` carrying the `GET` option replies with the prior live
value (re-encoded through the `Echo` reply) or the null reply when the prior
entry is absent or expired; the reply is produced from the pre-write
keyspace even though the processing step then overwrites the key. -/
theorem C5_set_get_option_pre_write :
    (∀ (db : DB) (key : String) (v : RESPValue) (opts : SetOpts) (now : Nat) (e : DBEntry),
        opts.get = true → db key = some e → e.is_expired now = false →
        (step (.set key v opts) db now).1 = .echo e.value ∧
        (opts.condition = .always →
          (step (.set key v opts) db now).2 key = some ⟨v, opts.expires_at⟩)) ∧
    (∀ (db : DB) (key : String) (v : RESPValue) (opts : SetOpts) (now : Nat),
        opts.get = true → db key = none →
        (step (.set key v opts) db now).1 = .null) ∧
    (∀ (db : DB) (key : String) (v : RESPValue) (opts : SetOpts) (now : Nat) (e : DBEntry),
        opts.get = true → db key = some e → e.is_expired now = true →
        (step (.set key v opts) db now).1 = .null) := by
  refine ⟨?_, ?_, ?_⟩
  · intro db key v opts now e hg he hl
    constructor
    · simp [step, as_response, Command.execute, db_get, hg, he, hl]
    · intro hc
      simp [step, as_response, Command.execute, db_get, db_set, hg, he, hl, hc]
  · intro db key v opts now hg he
    simp [step, as_response, db_get, hg, he]
  · intro db key v opts now e hg he hx
    simp [step, as_response, db_get, hg, he, hx]

/-- Claim C5 witness: `SET k 2 GET` over a live prior entry replies with the
prior value 7 while writing 2; over an absent or expired prior entry it
replies null. -/
theorem C5_set_get_option_pre_write_witness :
    ((step (.set "k" (.integer 2) ⟨some 99, .always, false, true⟩) dbLive 5).1 =
        .echo (.integer 7) ∧
      (step (.set "k" (.integer 2) ⟨some 99, .always, false, true⟩) dbLive 5).2 "k" =
        some ⟨.integer 2, some 99⟩) ∧
    (step (.set "k" (.integer 2) ⟨some 99, .always, false, true⟩) dbNone 5).1 = .null ∧
    (step (.set "k" (.integer 2) ⟨some 99, .always, false, true⟩) dbLive 20).1 = .null := by
  refine ⟨⟨?_, ?_⟩, ?_, ?_⟩
  · exact (C5_set_get_option_pre_write.1 dbLive "k" _ _ 5 ⟨.integer 7, some 10⟩
      rfl rfl (by decide)).1
  · exact (C5_set_get_option_pre_write.1 dbLive "k" _ _ 5 ⟨.integer 7, some 10⟩
      rfl rfl (by decide)).2 rfl
  · exact C5_set_get_option_pre_write.2.1 dbNone "k" _ _ 5 rfl rfl
  · exact C5_set_get_option_pre_write.2.2 dbLive "k" _ _ 20 ⟨.integer 7, some 10⟩
      rfl rfl (by decide)

/-- Claim C10: keyspace operations touch at most their argument key:
`db_set` and `db_get` leave every other key's entry unchanged, and a
`db_get` of a live or absent key leaves the whole mapping unchanged (so it
removes at most the queried key, and only when that entry is expired). -/
theorem C10_frame_conditions :
    (∀ (db : DB) (key : String) (value : RESPValue) (opts : SetOpts) (k' : String),
        k' ≠ key → (db_set db key value opts) k' = db k') ∧
    (∀ (db : DB) (key : String) (now : Nat) (k' : String),
        k' ≠ key → (db_get db key now).2 k' = db k') ∧
    (∀ (db : DB) (key : String) (now : Nat) (e : DBEntry),
        db key = some e → e.is_expired now = false → (db_get db key now).2 = db) ∧
    (∀ (db : DB) (key : String) (now : Nat),
        db key = none → (db_get db key now).2 = db) := by
  refine ⟨?_, ?_, ?_, ?_⟩
  · intro db key value opts k' hk
    unfold db_set
    by_cases h1 : (db key).isSome = true ∧ opts.condition = SetCondition.ifNotExists
    · simp [h1]
    · by_cases h2 : ¬(db key).isSome = true ∧ opts.condition = SetCondition.ifExists
      · simp [h1, h2]
      · rw [if_neg h1, if_neg h2]
        simp [hk]
  · intro db key now k' hk
    unfold db_get
    cases he : db key with
    | none => rfl
    | some e =>
        by_cases hx : e.is_expired now
        · simp [hx, hk]
        · simp [hx]
  · intro db key now e he hl
    simp [db_get, he, hl]
  · intro db key now he
    simp [db_get, he]

/-- Claim C10 witness: framing at concrete keyspaces and the distinct
key pair `"b" ≠ "a"`. -/
theorem C10_frame_conditions_witness :
    (db_set dbLive "a" (.integer 2) ⟨none, .always, false, false⟩) "b" = dbLive "b" ∧
    (db_get dbLive "a" 20).2 "b" = dbLive "b" ∧
    (db_get dbLive "a" 5).2 = dbLive ∧
    (db_get dbNone "a" 5).2 = dbNone :=
  ⟨C10_frame_conditions.1 dbLive "a" _ _ "b" (by decide),
   C10_frame_conditions.2.1 dbLive "a" 20 "b" (by decide),
   C10_frame_conditions.2.2.1 dbLive "a" 5 ⟨.integer 7, some 10⟩ rfl (by decide),
   C10_frame_conditions.2.2.2 dbNone "a" 5 rfl⟩

/-! ## RDB theorems -/

theorem readExact_append (pre rest : List Nat) :
    readExact pre.length (pre ++ rest) = some (pre, rest) := by
  simp [readExact, List.take_left, List.drop_left]

theorem extract_value_fd (s : List Nat) (lek : LengthEncodedKind) :
    extract_value 0xFD s lek = none := rfl

/-- Claim C7 failing inputs, String mode: a `00` variant whose length is 0
returns the literal `"0"` (byte `0x30`) instead of the empty string, and a
`00` variant payload byte `0x00` is rewritten to ASCII `'0'` instead of
being preserved. -/
theorem C7_zero_length_and_zero_bytes :
    extract_value 0x00 [0x41] .string = some ([0x30], [0x41]) ∧
    extract_value 0x01 [0x00, 0x41] .string = some ([0x30], [0x41]) := by decide

/-- Claim C9: in the `01` variant the low six bits of the first byte and the
following byte combine little-endian, low bits first: Integer mode reports
the length `(b &&& 0x3F) + 256 * n` (as its decimal text), and String mode
consumes exactly that many payload bytes. -/
theorem C9_fourteen_bit_length :
    (∀ (b n : Nat) (rest : List Nat), b &&& 0xC0 = 0x40 →
        extract_value b (n :: rest) .integer =
          some (natBytes ((b &&& 0x3F) + 256 * n), rest)) ∧
    (∀ (b n : Nat) (payload rest : List Nat), b &&& 0xC0 = 0x40 →
        payload.length = (b &&& 0x3F) + 256 * n → utf8Valid payload = true →
        extract_value b (n :: (payload ++ rest)) .string = some (payload, rest)) := by
  have hle : ∀ (x n : Nat), from_le_bytes [x, n] = x + 256 * n := by
    intro x n; simp [from_le_bytes]
  constructor
  · intro b n rest h40
    simp [extract_value, h40, hle]
  · intro b n payload rest h40 hlen hval
    have hread : readExact (from_le_bytes [b &&& 0x3F, n]) (payload ++ rest) =
        some (payload, rest) := by
      rw [hle, ← hlen]
      exact readExact_append payload rest
    simp [extract_value, h40, hread, hval]

set_option maxRecDepth 20000 in
/-- Claim C9 witness: byte `0x41` (low six bits 1) followed by byte 2
decodes to length 513, and String mode consumes a 513-byte payload. -/
theorem C9_fourteen_bit_length_witness :
    extract_value 0x41 [2] .integer = some (natBytes 513, []) ∧
    extract_value 0x41 (2 :: (List.replicate 513 0x41 ++ [0xFF])) .string =
      some (List.replicate 513 0x41, [0xFF]) :=
  ⟨C9_fourteen_bit_length.1 0x41 2 [] (by decide),
   C9_fourteen_bit_length.2 0x41 2 (List.replicate 513 0x41) [0xFF] (by decide)
     (by rw [List.length_replicate]; decide) (by decide)⟩


set_option maxRecDepth 20000 in
/-- Claim C6 counterexample: on `c6Bytes` the decode succeeds (outer `some`)
but the resulting data mapping has no entry at the data entry's key `" "`
(inner `none`), contradicting the claim that a zero `0xFC` expiry loads the
entry with no expiry. -/
theorem C6_zero_expiry_counterexample :
    (load_db_iter 10 c6Bytes Rdb.init).map (fun r => r.data [0x20]) = some none := by
  decide

/-- Claim C6 as amended: a data entry whose `0xFC` millisecond expiry
payload is zero is skipped entirely (the loop `continue`s past the type
byte, marker and expiry payload, resuming at the key's first byte), and a
data entry whose `0xFD` second expiry payload is zero makes the decoder fail
(the marker byte `0xFD` is reused as the key's first length byte, reaching
the source's `unreachable!` arm, modelled as `none`). -/
theorem C6_zero_expiry_amended :
    (∀ (fuel t : Nat) (rest : List Nat) (acc : Rdb),
        t ≠ 0xFA → t ≠ 0xFE → t ≠ 0xFB → t ≠ 0xFF →
        load_db_iter (fuel + 1) (t :: 0xFC :: (List.replicate 8 0 ++ rest)) acc =
          load_db_iter fuel rest acc) ∧
    (∀ (fuel t : Nat) (rest : List Nat) (acc : Rdb),
        t ≠ 0xFA → t ≠ 0xFE → t ≠ 0xFB → t ≠ 0xFF →
        load_db_iter (fuel + 1) (t :: 0xFD :: (List.replicate 4 0 ++ rest)) acc = none) := by
  have h8 : ∀ rest : List Nat, readExact 8 (0 :: 0 :: 0 :: 0 :: 0 :: 0 :: 0 :: 0 :: rest) =
      some ([0, 0, 0, 0, 0, 0, 0, 0], rest) := by
    intro rest
    simpa using readExact_append [0, 0, 0, 0, 0, 0, 0, 0] rest
  have h4 : ∀ rest : List Nat, readExact 4 (0 :: 0 :: 0 :: 0 :: rest) =
      some ([0, 0, 0, 0], rest) := by
    intro rest
    simpa using readExact_append [0, 0, 0, 0] rest
  have hz8 : from_le_bytes [0, 0, 0, 0, 0, 0, 0, 0] = 0 := by decide
  have hz4 : from_le_bytes [0, 0, 0, 0] = 0 := by decide
  constructor
  · intro fuel t rest acc h1 h2 h3 h4'
    simp only [load_db_iter]
    rw [if_neg h1, if_neg h2, if_neg h3, if_neg h4']
    simp [h8, hz8]
  · intro fuel t rest acc h1 h2 h3 h4'
    simp only [load_db_iter]
    rw [if_neg h1, if_neg h2, if_neg h3, if_neg h4']
    simp [h4, hz4, read_entry, extract_value_fd]

/-- Claim C6 amended witness: both behaviors at type tag 0, empty tail and
the initial record. -/
theorem C6_zero_expiry_amended_witness :
    load_db_iter 1 (0x00 :: 0xFC :: (List.replicate 8 0 ++ [])) Rdb.init =
      load_db_iter 0 [] Rdb.init ∧
    load_db_iter 1 (0x00 :: 0xFD :: (List.replicate 4 0 ++ [])) Rdb.init = none :=
  ⟨C6_zero_expiry_amended.1 0 0x00 [] Rdb.init (by decide) (by decide) (by decide) (by decide),
   C6_zero_expiry_amended.2 0 0x00 [] Rdb.init (by decide) (by decide) (by decide) (by decide)⟩

/-! ## Splitter lemmas -/

theorem noCRLF_cons (c : Char) (s : List Char) (hc : ¬c = '\r') (hs : noCRLF s = true) :
    noCRLF (c :: s) = true := by
  cases s with
  | nil => rfl
  | cons d s' => simpa [noCRLF, hc] using hs

theorem noCRLF_of_no_cr (s : List Char) (h : ∀ c ∈ s, ¬c = '\r') : noCRLF s = true := by
  induction s with
  | nil => rfl
  | cons c s' ih =>
      cases s' with
      | nil => rfl
      | cons d s'' =>
          have hc : ¬c = '\r' := h c (by simp)
          have : noCRLF (d :: s'') = true := ih (fun x hx => h x (by simp [hx]))
          simpa [noCRLF, hc] using this

theorem splitCRLF_append (s : List Char) (hs : noCRLF s = true) (r : List Char) :
    splitCRLF (s ++ (CRLF ++ r)) = s :: splitCRLF r := by
  induction s with
  | nil => simp [splitCRLF, CRLF]
  | cons c s' ih =>
      cases s' with
      | nil =>
          show splitCRLF (c :: '\r' :: ('\n' :: r)) = [c] :: splitCRLF r
          rw [splitCRLF]
          simp [splitCRLF]
      | cons d s'' =>
          have hcd : ¬(c = '\r' ∧ d = '\n') := by
            intro hand
            rw [noCRLF, if_pos hand] at hs
            exact Bool.false_ne_true hs
          have hs' : noCRLF (d :: s'') = true := by
            rw [noCRLF, if_neg hcd] at hs
            exact hs
          show splitCRLF (c :: d :: (s'' ++ (CRLF ++ r))) = (c :: d :: s'') :: splitCRLF r
          rw [splitCRLF, if_neg hcd]
          have ihd : splitCRLF (d :: (s'' ++ (CRLF ++ r))) = (d :: s'') :: splitCRLF r := ih hs'
          rw [ihd]

theorem joinSegs_cons (s : List Char) (ss : List (List Char)) :
    joinSegs (s :: ss) = s ++ (CRLF ++ joinSegs ss) := by
  simp [joinSegs]

theorem splitCRLF_joinSegs (ss : List (List Char)) (h : ∀ s ∈ ss, noCRLF s = true)
    (r : List Char) : splitCRLF (joinSegs ss ++ r) = ss ++ splitCRLF r := by
  induction ss with
  | nil => simp [joinSegs]
  | cons s ss' ih =>
      rw [joinSegs_cons, List.append_assoc, List.append_assoc,
        splitCRLF_append s (h s (by simp)) (joinSegs ss' ++ r),
        ih (fun x hx => h x (by simp [hx]))]
      rfl

/-! ## Decimal round-trip lemmas -/

theorem digitVal_digitChar (d : Nat) (h : d < 10) :
    digitVal (Nat.digitChar d) = some d := by
  interval_cases d <;> decide

theorem digitChar_not_cr (d : Nat) (h : d < 10) : ¬Nat.digitChar d = '\r' := by
  interval_cases d <;> decide

theorem digitChar_digit (d : Nat) (h : d < 10) :
    '0' ≤ Nat.digitChar d ∧ Nat.digitChar d ≤ '9' := by
  interval_cases d <;> exact ⟨by decide, by decide⟩

theorem parseDigitsCore_append (l1 l2 : List Char) (acc : Nat) :
    parseDigitsCore (l1 ++ l2) acc =
      (parseDigitsCore l1 acc).bind (fun a => parseDigitsCore l2 a) := by
  induction l1 generalizing acc with
  | nil => simp [parseDigitsCore]
  | cons c cs ih =>
      rw [List.cons_append]
      simp only [parseDigitsCore]
      cases hd : digitVal c with
      | none => simp [hd]
      | some d =>
          simp only [hd]
          exact ih (10 * acc + d)

theorem parseDigitsCore_digits_rev (L : List Nat) (hL : ∀ d ∈ L, d < 10) (acc : Nat) :
    parseDigitsCore ((L.map Nat.digitChar).reverse) acc =
      some (acc * 10 ^ L.length + Nat.ofDigits 10 L) := by
  induction L generalizing acc with
  | nil => simp [parseDigitsCore, Nat.ofDigits]
  | cons d L' ih =>
      have hd : d < 10 := hL d (by simp)
      rw [List.map_cons, List.reverse_cons, parseDigitsCore_append,
        ih (fun x hx => hL x (by simp [hx])) acc]
      rw [Option.some_bind]
      simp only [parseDigitsCore, digitVal_digitChar d hd]
      congr 1
      rw [Nat.ofDigits_cons]
      simp only [List.length_cons, pow_succ]
      ring

theorem natChars_ne_nil (n : Nat) : natChars n ≠ [] := by
  unfold natChars
  by_cases h : n = 0
  · simp [h]
  · simp [h, List.map_eq_nil_iff, Nat.digits_ne_nil_iff_ne_zero.mpr h]

theorem natChars_all_digit (n : Nat) : ∀ c ∈ natChars n, '0' ≤ c ∧ c ≤ '9' := by
  intro c hc
  unfold natChars at hc
  by_cases h : n = 0
  · simp [h] at hc
    simp [hc]
  · rw [if_neg h] at hc
    simp only [List.mem_map, List.mem_reverse] at hc
    obtain ⟨d, hd, rfl⟩ := hc
    exact digitChar_digit d (Nat.digits_lt_base (by norm_num) hd)

theorem natChars_no_cr (n : Nat) : ∀ c ∈ natChars n, ¬c = '\r' := by
  intro c hc heq
  have := (natChars_all_digit n c hc).1
  rw [heq] at this
  exact absurd this (by decide)

theorem parseDigits_natChars (n : Nat) : parseDigits (natChars n) = some n := by
  by_cases h : n = 0
  · subst h
    decide
  · have hrev : natChars n = ((Nat.digits 10 n).map Nat.digitChar).reverse := by
      unfold natChars
      rw [if_neg h, List.map_reverse]
    obtain ⟨c, cs, hcs⟩ : ∃ c cs, natChars n = c :: cs := by
      cases hx : natChars n with
      | nil => exact absurd hx (natChars_ne_nil n)
      | cons c cs => exact ⟨c, cs, rfl⟩
    have hcore : parseDigitsCore (natChars n) 0 = some n := by
      rw [hrev, parseDigitsCore_digits_rev (Nat.digits 10 n)
        (fun d hd => Nat.digits_lt_base (by norm_num) hd) 0]
      simp [Nat.ofDigits_digits]
    rw [hcs] at hcore ⊢
    exact hcore

theorem intChars_no_cr (i : Int) : ∀ c ∈ intChars i, ¬c = '\r' := by
  intro c hc
  unfold intChars at hc
  by_cases h : i < 0
  · rw [if_pos h] at hc
    rcases List.mem_cons.mp hc with h1 | h2
    · subst h1; decide
    · exact natChars_no_cr _ c h2
  · rw [if_neg h] at hc
    exact natChars_no_cr _ c hc

theorem parseUsize_natChars (n : Nat) (h : n < 2 ^ 64) : parseUsize (natChars n) = some n := by
  obtain ⟨c, cs, hcs⟩ : ∃ c cs, natChars n = c :: cs := by
    cases hx : natChars n with
    | nil => exact absurd hx (natChars_ne_nil n)
    | cons c cs => exact ⟨c, cs, rfl⟩
  have hdig := natChars_all_digit n c (by rw [hcs]; simp)
  have hplus : ¬c = '+' := by
    intro heq
    rw [heq] at hdig
    exact absurd hdig.1 (by decide)
  rw [hcs, parseUsize, if_neg hplus, ← hcs, parseDigits_natChars n]
  show (if n < 2 ^ 64 then some n else none) = some n
  rw [if_pos h]

theorem parseI64_intChars (i : Int) (h1 : -(2 ^ 63) ≤ i) (h2 : i < 2 ^ 63) :
    parseI64 (intChars i) = some i := by
  by_cases hneg : i < 0
  · have : intChars i = '-' :: natChars i.natAbs := by
      unfold intChars
      rw [if_pos hneg]
    rw [this, parseI64, if_pos rfl, parseDigits_natChars]
    have hle : i.natAbs ≤ 2 ^ 63 := by omega
    show (if i.natAbs ≤ 2 ^ 63 then some (-(i.natAbs : Int)) else none) = some i
    rw [if_pos hle]
    congr 1
    omega
  · have : intChars i = natChars i.toNat := by
      unfold intChars
      rw [if_neg hneg]
    obtain ⟨c, cs, hcs⟩ : ∃ c cs, natChars i.toNat = c :: cs := by
      cases hx : natChars i.toNat with
      | nil => exact absurd hx (natChars_ne_nil _)
      | cons c cs => exact ⟨c, cs, rfl⟩
    have hdig := natChars_all_digit i.toNat c (by rw [hcs]; simp)
    have hminus : ¬c = '-' := by
      intro heq; rw [heq] at hdig; exact absurd hdig.1 (by decide)
    have hplus : ¬c = '+' := by
      intro heq; rw [heq] at hdig; exact absurd hdig.1 (by decide)
    rw [this, hcs, parseI64, if_neg hminus, if_neg hplus, ← hcs, parseDigits_natChars]
    have hlt : i.toNat < 2 ^ 63 := by omega
    show (if i.toNat < 2 ^ 63 then some ((i.toNat : Int)) else none) = some i
    rw [if_pos hlt]
    congr 1
    omega

/-! ## Encoder/segment correspondence -/

theorem joinSegs_append (ss ts : List (List Char)) :
    joinSegs (ss ++ ts) = joinSegs ss ++ joinSegs ts := by
  simp [joinSegs]

mutual

theorem encode_eq_joinSegs (v : RESPValue) : encode v = joinSegs (segs v) := by
  cases v with
  | simpleString s => simp [encode, segs, joinSegs]
  | error s => simp [encode, segs, joinSegs]
  | integer i => simp [encode, segs, joinSegs]
  | bulkString s => simp [encode, segs, joinSegs]
  | array vs =>
      rw [encode, segs, encodeList_eq_joinSegs vs, joinSegs_cons]
      simp
termination_by sizeOf v

theorem encodeList_eq_joinSegs (vs : List RESPValue) :
    encodeList vs = joinSegs (segsList vs) := by
  cases vs with
  | nil => simp [encodeList, segsList, joinSegs]
  | cons v vs' =>
      rw [encodeList, segsList, encode_eq_joinSegs v, encodeList_eq_joinSegs vs',
        joinSegs_append]
termination_by sizeOf vs

end

mutual

theorem segs_noCRLF (v : RESPValue) (hw : wf v = true) :
    ∀ s ∈ segs v, noCRLF s = true := by
  cases v with
  | simpleString s =>
      intro x hx
      rw [segs, List.mem_singleton] at hx
      subst hx
      rw [wf, List.all_eq_true] at hw
      refine noCRLF_cons _ _ (by decide) (noCRLF_of_no_cr s fun c hc heq => ?_)
      have := hw c hc
      simp [heq] at this
  | error s =>
      intro x hx
      rw [segs, List.mem_singleton] at hx
      subst hx
      rw [wf, List.all_eq_true] at hw
      refine noCRLF_cons _ _ (by decide) (noCRLF_of_no_cr s fun c hc heq => ?_)
      have := hw c hc
      simp [heq] at this
  | integer i =>
      intro x hx
      rw [segs, List.mem_singleton] at hx
      subst hx
      exact noCRLF_cons _ _ (by decide) (noCRLF_of_no_cr _ (intChars_no_cr i))
  | bulkString s =>
      intro x hx
      rw [segs] at hx
      rcases List.mem_cons.mp hx with h | h
      · subst h
        exact noCRLF_cons _ _ (by decide) (noCRLF_of_no_cr _ (natChars_no_cr _))
      · rw [List.mem_singleton] at h
        subst h
        rw [wf] at hw
        exact hw
  | array vs =>
      intro x hx
      rw [segs] at hx
      rw [wf, Bool.and_eq_true] at hw
      rcases List.mem_cons.mp hx with h | h
      · subst h
        exact noCRLF_cons _ _ (by decide) (noCRLF_of_no_cr _ (natChars_no_cr _))
      · exact segsList_noCRLF vs hw.2 x h
termination_by sizeOf v

theorem segsList_noCRLF (vs : List RESPValue) (hw : wfList vs = true) :
    ∀ s ∈ segsList vs, noCRLF s = true := by
  cases vs with
  | nil => intro x hx; rw [segsList] at hx; exact absurd hx (List.not_mem_nil x)
  | cons v vs' =>
      intro x hx
      rw [wfList, Bool.and_eq_true] at hw
      rw [segsList] at hx
      rcases List.mem_append.mp hx with h | h
      · exact segs_noCRLF v hw.1 x h
      · exact segsList_noCRLF vs' hw.2 x h
termination_by sizeOf vs

end

theorem segs_shape (v : RESPValue) : ∃ c s rest, segs v = (c :: s) :: rest := by
  cases v with
  | simpleString s => exact ⟨'+', s, [], rfl⟩
  | error s => exact ⟨'-', s, [], rfl⟩
  | integer i => exact ⟨':', intChars i, [], rfl⟩
  | bulkString s => exact ⟨'$', natChars (utf8Len s), [s], rfl⟩
  | array vs => exact ⟨'*', natChars vs.length, segsList vs, rfl⟩

/-! ## Parser correctness on canonical segments -/

theorem parseSegsRun_some (parts : List (List Char)) (v : RESPValue)
    (l : List (List Char)) (h : parseSegsRun parts = some (v, l)) :
    ∃ hh, parseSegs parts = some (v, ⟨l, hh⟩) := by
  unfold parseSegsRun at h
  rcases Option.map_eq_some'.mp h with ⟨⟨pv, pl, hpl⟩, hp, hpe⟩
  rw [Prod.mk.injEq] at hpe
  obtain ⟨h1, h2⟩ := hpe
  subst h1
  subst h2
  exact ⟨hpl, hp⟩

theorem parseArrRun_some (len : Nat) (parts : List (List Char)) (vs : List RESPValue)
    (l : List (List Char)) (h : parseArrRun len parts = some (vs, l)) :
    ∃ hh, parseArr len parts = some (vs, ⟨l, hh⟩) := by
  unfold parseArrRun at h
  rcases Option.map_eq_some'.mp h with ⟨⟨pv, pl, hpl⟩, hp, hpe⟩
  rw [Prod.mk.injEq] at hpe
  obtain ⟨h1, h2⟩ := hpe
  subst h1
  subst h2
  exact ⟨hpl, hp⟩

mutual

theorem parseSegsRun_segs (v : RESPValue) (hw : wf v = true) (tail : List (List Char)) :
    parseSegsRun (segs v ++ tail) = some (v, tail) := by
  cases v with
  | simpleString s =>
      rw [segs, List.singleton_append, parseSegsRun, parseSegs.eq_def]
      simp
  | error s =>
      rw [segs, List.singleton_append, parseSegsRun, parseSegs.eq_def]
      simp
  | integer i =>
      rw [wf] at hw
      have hb : -(2 ^ 63) ≤ i ∧ i < 2 ^ 63 := of_decide_eq_true hw
      rw [segs, List.singleton_append, parseSegsRun, parseSegs.eq_def]
      simp [parseI64_intChars i hb.1 hb.2]
  | bulkString s =>
      rw [segs, parseSegsRun, parseSegs.eq_def]
      simp
  | array vs =>
      rw [wf, Bool.and_eq_true] at hw
      have hlen : vs.length < 2 ^ 64 := of_decide_eq_true hw.1
      obtain ⟨hh, heq⟩ := parseArrRun_some _ _ _ _ (parseArrRun_segsList vs hw.2 tail)
      rw [segs, List.cons_append, parseSegsRun, parseSegs.eq_def]
      simp [parseUsize_natChars vs.length hlen, heq]
termination_by sizeOf v

theorem parseArrRun_segsList (vs : List RESPValue) (hw : wfList vs = true)
    (tail : List (List Char)) :
    parseArrRun vs.length (segsList vs ++ tail) = some (vs, tail) := by
  cases vs with
  | nil =>
      rw [segsList, List.nil_append, List.length_nil, parseArrRun, parseArr.eq_def]
      simp
  | cons v vs' =>
      rw [wfList, Bool.and_eq_true] at hw
      obtain ⟨hh1, heq1⟩ :=
        parseSegsRun_some _ _ _ (parseSegsRun_segs v hw.1 (segsList vs' ++ tail))
      obtain ⟨hh2, heq2⟩ :=
        parseArrRun_some _ _ _ _ (parseArrRun_segsList vs' hw.2 tail)
      rw [show segsList (v :: vs') ++ tail = segs v ++ (segsList vs' ++ tail) from by
        rw [segsList, List.append_assoc]]
      rw [List.length_cons, parseArrRun, parseArr.eq_def]
      simp [heq1, heq2]
termination_by sizeOf vs

end

theorem parseLoop_segsList (vs : List RESPValue) (hw : wfList vs = true) :
    parseLoop (segsList vs ++ [[]]) = some vs := by
  induction vs with
  | nil =>
      rw [segsList, List.nil_append, parseLoop.eq_def]
      simp
  | cons v vs' ih =>
      rw [wfList, Bool.and_eq_true] at hw
      obtain ⟨c, s, rest, hshape⟩ := segs_shape v
      have e1 := parseSegsRun_segs v hw.1 (segsList vs' ++ [[]])
      rw [hshape, List.cons_append] at e1
      obtain ⟨hh, heq⟩ := parseSegsRun_some _ _ _ e1
      rw [show segsList (v :: vs') ++ [[]] = (c :: s) :: (rest ++ (segsList vs' ++ [[]])) from by
        rw [segsList, hshape, List.append_assoc, List.cons_append]]
      rw [parseLoop.eq_def]
      simp [heq, ih hw.2]

/-- Claim C1: for any sequence of values in the supported subset, parsing
the concatenation of their canonical wire encodings yields exactly that
sequence; in particular a single encoded value round-trips to its
singleton. -/
theorem C1_parse_encode_roundtrip :
    (∀ vs : List RESPValue, wfList vs = true →
        parse_input (encodeList vs) = some vs) ∧
    (∀ v : RESPValue, wf v = true → parse_input (encode v) = some [v]) := by
  have main : ∀ vs : List RESPValue, wfList vs = true →
      parse_input (encodeList vs) = some vs := by
    intro vs hw
    unfold parse_input
    rw [encodeList_eq_joinSegs]
    have hsplit := splitCRLF_joinSegs (segsList vs) (segsList_noCRLF vs hw) []
    rw [List.append_nil] at hsplit
    rw [hsplit]
    exact parseLoop_segsList vs hw
  refine ⟨main, fun v hv => ?_⟩
  have h1 : wfList [v] = true := by
    rw [wfList, Bool.and_eq_true]
    exact ⟨hv, rfl⟩
  have := main [v] h1
  rw [show encodeList [v] = encode v by rw [encodeList, encodeList]; simp] at this
  exact this

/-- Claim C1 witness: a concrete pipeline of two values (a simple string
and a nested array holding an integer, a bulk string with a lone CR, and an
empty array) round-trips. -/
theorem C1_parse_encode_roundtrip_witness :
    parse_input (encodeList
      [RESPValue.simpleString ['h', 'i'],
       RESPValue.array [RESPValue.integer (-57),
         RESPValue.bulkString ['a', '\r', 'b'], RESPValue.array []]]) =
      some
      [RESPValue.simpleString ['h', 'i'],
       RESPValue.array [RESPValue.integer (-57),
         RESPValue.bulkString ['a', '\r', 'b'], RESPValue.array []]] :=
  C1_parse_encode_roundtrip.1 _ (by
    rw [wfList, wf, wfList, wf, Bool.and_eq_true, Bool.and_eq_true]
    refine ⟨by decide, ?_, rfl⟩
    rw [Bool.and_eq_true]
    refine ⟨by decide, ?_⟩
    rw [wfList, wf, wfList, wf, wfList, wf, wfList, Bool.and_eq_true, Bool.and_eq_true,
      Bool.and_eq_true, Bool.and_eq_true]
    exact ⟨by decide, by decide, ⟨by decide, rfl⟩, rfl⟩)

/-! ## Unknown first byte -/

theorem parseSegs_unknown_tag (c : Char) (s : List Char) (parts : List (List Char))
    (h1 : ¬c = '+') (h2 : ¬c = '-') (h3 : ¬c = ':') (h4 : ¬c = '$') (h5 : ¬c = '*') :
    parseSegs ((c :: s) :: parts) = none := by
  rw [parseSegs.eq_def]
  simp [h1, h2, h3, h4, h5]

/-- Claim C8 counterexample: on the frame `"@abc\r\n"`, whose first byte is
not one of the five implemented tag bytes, the parser's outcome is the
panic outcome (`none` — the source hits `panic!("Unknown prefix: ...")`),
not an error value: the source parser has no error-returning path at all,
so the claim that it "fails with an error value rather than panicking" is
false. -/
theorem C8_unknown_tag_counterexample :
    parse_input ['@', 'a', 'b', 'c', '\r', '\n'] = none := by
  have hsplit : splitCRLF ['@', 'a', 'b', 'c', '\r', '\n'] = [['@', 'a', 'b', 'c'], []] := by
    decide
  unfold parse_input
  rw [hsplit, parseLoop.eq_def]
  simp [parseSegs_unknown_tag '@' ['a', 'b', 'c'] [[]] (by decide) (by decide) (by decide)
    (by decide) (by decide)]

/-- Claim C8 as amended: on an input whose first byte is not one of the
five implemented tag bytes, the parser panics — every failure of
`parse_input_segments` is a panic (modelled `none`), and no error value of
any kind is produced.  The parse is total only in the sense that the panic
outcome is reached for every such input. -/
theorem C8_unknown_tag_amended :
    ∀ (c : Char) (s : List Char) (parts : List (List Char)),
      ¬c = '+' → ¬c = '-' → ¬c = ':' → ¬c = '$' → ¬c = '*' →
      noCRLF (c :: s) = true →
      parseSegsRun ((c :: s) :: parts) = none ∧
      parse_input ((c :: s) ++ CRLF) = none := by
  intro c s parts h1 h2 h3 h4 h5 hn
  constructor
  · rw [parseSegsRun, parseSegs_unknown_tag c s parts h1 h2 h3 h4 h5]
    rfl
  · have hsplit := splitCRLF_append (c :: s) hn []
    rw [List.append_nil, show splitCRLF ([] : List Char) = [[]] from rfl] at hsplit
    unfold parse_input
    rw [hsplit, parseLoop.eq_def]
    simp [parseSegs_unknown_tag c s [[]] h1 h2 h3 h4 h5]

/-- Claim C8 amended witness: the unknown tag byte `#` (a RESP3 tag the
source defines but does not implement). -/
theorem C8_unknown_tag_amended_witness :
    parseSegsRun (['#', 'x'] :: []) = none ∧
    parse_input (['#', 'x'] ++ CRLF) = none :=
  C8_unknown_tag_amended '#' ['x'] [] (by decide) (by decide) (by decide) (by decide)
    (by decide) (by decide)

end Redis
